import Mathlib

/-!
# Verification of the Branded Catalog PDF Builder

A shallow embedding, in Lean 4, of the core of `catalog_app.py`:

* `read_zip_images` — extracts image entries from a zip archive, sorted by
  entry name, decoded and normalised to RGBA;
* `img_to_reader` — composites an RGBA image onto a white background (or
  converts a non-alpha image to RGB) before embedding it in the PDF;
* `build_catalog_pdf` — renders the catalog: one cover page followed by one
  page per entry.

Modelling conventions:

* Python floats are modelled by `ℚ`; the page coordinates of the program are
  exact decimal fractions, so no precision is lost.  A Python float division
  by zero raises `ZeroDivisionError`; accordingly the renderer is embedded in
  `Except PyErr` and performs the zero test where the source divides.
* A PIL image is a mode (the source only distinguishes `"RGBA"` from
  non-alpha modes), a width, a height and a pixel buffer.  Pixel channels are
  `Nat`s (bytes in practice).  `bg.paste(img, mask=alpha)` is PIL's
  fixed-point alpha blend `MULDIV255`, embedded exactly in `muldiv255`.
* Image *decoding* (`PIL.Image.open`) is an external library call; it is a
  parameter `dec : List Nat → Option PILImage` of the archive reader, `none`
  modelling the `UnidentifiedImageError` that `Image.open` raises on bytes it
  cannot decode.
* The PDF canvas is a list of pages, each page a list of draw operations;
  every `drawString` in the source is immediately preceded by a `setFont`, so
  the current font is folded into each text operation.  `c.setTitle` becomes
  the document's `metaTitle` field.
* `date.today().isoformat()` is an explicit `today : String` parameter.
* Python's `sorted` on strings is the unique ascending reordering of the
  input (duplicate strings are indistinguishable), embedded as
  `List.insertionSort (· ≤ ·)`.
-/

namespace CatalogApp

/-- The image modes the source distinguishes: `img.mode == "RGBA"` versus
everything else (converted with `img.convert("RGB")`). -/
inductive Mode
  | RGBA
  | RGB
  deriving DecidableEq, Repr

/-- One pixel; channels are bytes (`0–255`).  For a non-alpha mode the `a`
channel is vacuous and kept at `255`. -/
structure Pixel where
  r : Nat
  g : Nat
  b : Nat
  a : Nat
  deriving DecidableEq, Repr

/-- A decoded PIL image: mode, size and pixel buffer. -/
structure PILImage where
  mode : Mode
  width : Nat
  height : Nat
  pixels : List Pixel
  deriving DecidableEq, Repr

/-- The Python exceptions the embedded code can raise. -/
inductive PyErr
  | zeroDivisionError (msg : String)
  | unidentifiedImageError
  deriving DecidableEq, Repr

/-- The message a Python exception prints. -/
def PyErr.msg : PyErr → String
  | .zeroDivisionError m => m
  | .unidentifiedImageError => "cannot identify image file"

/-- PIL's fixed-point `MULDIV255(a, b, tmp)`:
`tmp = a*b + 128; ((tmp >> 8) + tmp) >> 8` — a rounding division of `a*b`
by 255. -/
def muldiv255 (a b : Nat) : Nat :=
  ((a * b + 128) / 256 + (a * b + 128)) / 256

/-- One pixel of `bg.paste(img, mask=img.split()[3])` with `bg` opaque white:
PIL's `BLEND(mask, in1, in2) = MULDIV255(in1, 255-mask) + MULDIV255(in2, mask)`
with `in1 = 255` (white background) and `in2` the source channel. -/
def blendWhite (p : Pixel) : Pixel :=
  { r := muldiv255 255 (255 - p.a) + muldiv255 p.r p.a
    g := muldiv255 255 (255 - p.a) + muldiv255 p.g p.a
    b := muldiv255 255 (255 - p.a) + muldiv255 p.b p.a
    a := 255 }

/-- PIL's `img.convert("RGBA")`: an RGBA image is unchanged, any other image keeps
its colour channels and gains an opaque alpha channel. -/
def convertRGBA (img : PILImage) : PILImage :=
  match img.mode with
  | .RGBA => img
  | .RGB =>
    { mode := .RGBA, width := img.width, height := img.height
      pixels := img.pixels.map fun p => { p with a := 255 } }

/-- The source's `img_to_reader` (lines 26–38): an RGBA image is pasted onto
an opaque white RGB background using its alpha channel as mask (discarding the
alpha channel); any other image is converted to plain RGB.  The PNG
round-trip through `ImageReader` is lossless and is elided. -/
def img_to_reader (img : PILImage) : PILImage :=
  match img.mode with
  | .RGBA =>
    { mode := .RGB, width := img.width, height := img.height
      pixels := img.pixels.map blendWhite }
  | .RGB =>
    { mode := .RGB, width := img.width, height := img.height
      pixels := img.pixels.map fun p => { p with a := 255 } }

/-! ## The archive reader -/

/-- A zip archive: the entries in physical order, each a (name, raw bytes)
pair.  Directory entries are present with names ending in `"/"` (the zip
convention) and empty content. -/
structure ZipArchive where
  entries : List (String × List Nat)
  deriving DecidableEq, Repr

/-- Python's `z.namelist()`: the entry names in physical order. -/
def ZipArchive.namelist (z : ZipArchive) : List String :=
  z.entries.map Prod.fst

/-- Python's `z.read(name)`: `zipfile` resolves a name through its `NameToInfo`
dictionary, so for duplicated names the last entry wins. -/
def ZipArchive.readEntry (z : ZipArchive) (name : String) : List Nat :=
  (((z.entries.filter fun e => e.1 = name).getLast?).map Prod.snd).getD []

/-- Python's `str.lower()` (character-wise lowering; exact on the ASCII
suffixes the program matches). -/
def pyLower (s : String) : String :=
  String.mk (s.data.map Char.toLower)

/-- Whether the second list is an initial segment of the first. -/
def startsWithSeg : List Char → List Char → Bool
  | _, [] => true
  | [], _ :: _ => false
  | a :: as, b :: bs => decide (a = b) && startsWithSeg as bs

/-- Whether the second list occurs as a contiguous segment of the first. -/
def hasSeg : List Char → List Char → Bool
  | _, [] => true
  | [], _ :: _ => false
  | a :: as, b :: bs => startsWithSeg (a :: as) (b :: bs) || hasSeg as (b :: bs)

/-- Python's `s.endswith(t)` on code-point sequences: `t` is a suffix of `s`,
checked on the reversed sequences. -/
def pyEndsWith (s t : String) : Bool :=
  startsWithSeg s.data.reverse t.data.reverse

/-- Python's `needle in hay` on strings. -/
def pyIn (needle hay : String) : Bool :=
  hasSeg hay.data needle.data

/-- The source's filter `name.lower().endswith((".png", ".jpg", ".jpeg"))`. -/
def isImageName (name : String) : Bool :=
  pyEndsWith (pyLower name) ".png" || pyEndsWith (pyLower name) ".jpg" ||
    pyEndsWith (pyLower name) ".jpeg"

/-- Python's `<=` on code-point sequences: lexicographic comparison,
character by character, by code point. -/
def pyCharsLe : List Char → List Char → Bool
  | [], _ => true
  | _ :: _, [] => false
  | a :: as, b :: bs => if a = b then pyCharsLe as bs else decide (a < b)

/-- Python's `<=` on strings: lexicographic by code points. -/
def pyLe (a b : String) : Prop :=
  pyCharsLe a.data b.data = true

instance : DecidableRel pyLe := fun a b =>
  inferInstanceAs (Decidable (pyCharsLe a.data b.data = true))

/-- Python's `sorted` on strings: the ascending reordering of the input under
the lexicographic code-point order.  (Key-equal strings are identical, so any
stable sort — in particular insertion sort — produces the same list as
Python's sort.) -/
def pySorted (l : List String) : List String :=
  l.insertionSort pyLe

/-- The loop body of `read_zip_images` over an already sorted name list:
names with a recognised image suffix are read and decoded (a failed decode
raises, aborting the whole call), all other names are skipped. -/
def read_zip_loop (dec : List Nat → Option PILImage) (z : ZipArchive) :
    List String → Except PyErr (List (String × PILImage))
  | [] => .ok []
  | name :: rest =>
    if isImageName name then
      match dec (z.readEntry name) with
      | none => .error .unidentifiedImageError
      | some img =>
        match read_zip_loop dec z rest with
        | .error e => .error e
        | .ok out => .ok ((name, convertRGBA img) :: out)
    else
      read_zip_loop dec z rest

/-- The source's `read_zip_images` (lines 16–23): iterate over
`sorted(z.namelist())`, decode every entry with a recognised image suffix and
normalise it to RGBA. -/
def read_zip_images (dec : List Nat → Option PILImage) (z : ZipArchive) :
    Except PyErr (List (String × PILImage)) :=
  read_zip_loop dec z (pySorted z.namelist)

/-! ## The renderer -/

/-- One inch, `reportlab.lib.units.inch` = 72 points. -/
def inch : ℚ := 72

/-- The `letter` page width: 612 points. -/
def pageW : ℚ := 612

/-- The `letter` page height: 792 points. -/
def pageH : ℚ := 792

/-- A drawing operation on the canvas.  The font active at each `drawString`
is recorded in the operation itself (each `drawString` in the source is
directly preceded by its `setFont`). -/
inductive DrawOp
  | text (font : String) (size : ℚ) (x y : ℚ) (s : String)
  | image (img : PILImage) (x y w h : ℚ)
  | line (x1 y1 x2 y2 : ℚ)
  deriving DecidableEq, Repr

/-- A produced document: the `setTitle` metadata and the pages in emission
order. -/
structure PDFDoc where
  metaTitle : String
  pages : List (List DrawOp)
  deriving DecidableEq, Repr

/-- Python's `f"{idx:02d}"` for a non-negative index. -/
def pad2 (n : Nat) : String :=
  if n < 10 then "0" ++ toString n else toString n

/-- The cover page (lines 52–74 of the source). -/
def coverPage (logo : Option PILImage) (title subtitle footer today : String) :
    List DrawOp :=
  [DrawOp.text "Helvetica-Bold" 26 (1.0 * inch) (pageH - 1.4 * inch) title,
   DrawOp.text "Helvetica" 14 (1.0 * inch) (pageH - 1.8 * inch) subtitle,
   DrawOp.text "Helvetica" 11 (1.0 * inch) (pageH - 2.2 * inch)
     ("Generated: " ++ today)]
  ++ (match logo with
      | some l =>
        [DrawOp.image (img_to_reader l) (pageW - 1.6 * inch - 0.8 * inch)
          (pageH - 1.0 * inch - 0.9 * inch) (1.6 * inch) (1.0 * inch)]
      | none => [])
  ++ [DrawOp.line (1.0 * inch) (pageH - 2.5 * inch) (pageW - 1.0 * inch)
        (pageH - 2.5 * inch),
      DrawOp.text "Helvetica" 10 (1.0 * inch) (0.8 * inch) footer]

/-- One entry page (the loop body, lines 77–112 of the source), for an entry
whose image has nonzero dimensions. -/
def entryPage (logo : Option PILImage) (footer : String) (idx : Nat)
    (name : String) (img : PILImage) : List DrawOp :=
  let boxW : ℚ := pageW - 2 * (1.0 * inch)
  let boxH : ℚ := pageH - 3.0 * inch
  let scale : ℚ := min (boxW / img.width) (boxH / img.height)
  let drawW : ℚ := img.width * scale
  let drawH : ℚ := img.height * scale
  let x : ℚ := 1.0 * inch + (boxW - drawW) / 2
  let y : ℚ := 1.2 * inch + (boxH - drawH) / 2
  [DrawOp.text "Helvetica-Bold" 18 (1.0 * inch) (pageH - 1.0 * inch)
     ("Design " ++ pad2 idx),
   DrawOp.text "Helvetica" 10 (1.0 * inch) (pageH - 1.25 * inch)
     ("Source: " ++ name)]
  ++ (match logo with
      | some l =>
        [DrawOp.image (img_to_reader l) (pageW - 1.2 * inch - 0.8 * inch)
          (pageH - 0.75 * inch - 0.9 * inch) (1.2 * inch) (0.75 * inch)]
      | none => [])
  ++ [DrawOp.image (img_to_reader img) x y drawW drawH,
      DrawOp.text "Helvetica" 10 (1.0 * inch) (0.8 * inch) footer]

/-- The `for idx, (name, img) in enumerate(images, start=1)` loop: emits one
page per entry; `box_w / iw` (or `box_h / ih`) on a zero-dimension image
raises Python's float `ZeroDivisionError`, aborting the whole call. -/
def entryPages (logo : Option PILImage) (footer : String) :
    Nat → List (String × PILImage) → Except PyErr (List (List DrawOp))
  | _, [] => .ok []
  | idx, (name, img) :: rest =>
    if img.width = 0 ∨ img.height = 0 then
      .error (.zeroDivisionError "float division by zero")
    else
      match entryPages logo footer (idx + 1) rest with
      | .error e => .error e
      | .ok ps => .ok (entryPage logo footer idx name img :: ps)

/-- The source's `build_catalog_pdf` (lines 41–115).  `logo : Option` models
the `logo_img=None` case (`if logo_img:` is `False` exactly when no logo was
supplied).  On success the document is the cover page followed by one page
per entry; a `ZeroDivisionError` escapes before `buf.getvalue()`, so no bytes
are returned. -/
def build_catalog_pdf (logo : Option PILImage)
    (images : List (String × PILImage))
    (title subtitle footer today : String) : Except PyErr PDFDoc :=
  match entryPages logo footer 1 images with
  | .error e => .error e
  | .ok ps => .ok { metaTitle := title
                    pages := coverPage logo title subtitle footer today :: ps }

/-! ## Verification-layer definitions -/

/-- The entry pages of a successful run (the value `entryPages` computes when
no entry has a zero dimension). -/
def entryPagesPure (logo : Option PILImage) (footer : String) :
    Nat → List (String × PILImage) → List (List DrawOp)
  | _, [] => []
  | idx, (name, img) :: rest =>
    entryPage logo footer idx name img :: entryPagesPure logo footer (idx + 1) rest

/-- Recognises the two draw operations that place the logo: the cover places
it at width 1.6in × height 1.0in and the entry pages at 1.2in × 0.75in, both
right-aligned 0.8in from the right edge and 0.9in from the top. -/
def isLogoOp : DrawOp → Bool
  | .image _ x y w h =>
    (decide (x = pageW - 1.6 * inch - 0.8 * inch) &&
       decide (y = pageH - 1.0 * inch - 0.9 * inch) &&
       decide (w = 1.6 * inch) && decide (h = 1.0 * inch)) ||
    (decide (x = pageW - 1.2 * inch - 0.8 * inch) &&
       decide (y = pageH - 0.75 * inch - 0.9 * inch) &&
       decide (w = 1.2 * inch) && decide (h = 0.75 * inch))
  | _ => false

/-- Blanks the text of the generated-date line (the only text drawn at
font size 11 at position `(1in, H − 2.2in)`). -/
def scrubOp : DrawOp → DrawOp
  | .text f sz x y s =>
    if sz = 11 ∧ x = 1.0 * inch ∧ y = pageH - 2.2 * inch then
      DrawOp.text f sz x y ""
    else
      DrawOp.text f sz x y s
  | op => op

/-- A document with its generated-date text blanked, used to state that two
runs differ only where the generation date is embedded. -/
def scrubDoc (doc : PDFDoc) : PDFDoc :=
  { metaTitle := doc.metaTitle, pages := doc.pages.map fun pg => pg.map scrubOp }

/-- A small concrete image used to instantiate theorems with hypotheses. -/
def sampleImg : PILImage :=
  { mode := Mode.RGBA, width := 2, height := 3
    pixels := List.replicate 6 { r := 10, g := 20, b := 30, a := 40 } }

/-- A small concrete entry list used to instantiate theorems with
hypotheses. -/
def sampleEntries : List (String × PILImage) :=
  [("a.png", sampleImg)]

/-- A small concrete logo used to instantiate theorems with hypotheses. -/
def sampleLogo : PILImage :=
  { mode := Mode.RGBA, width := 1, height := 1
    pixels := [{ r := 1, g := 2, b := 3, a := 128 }] }

/-- A concrete archive with two image entries (listed out of order), a
directory entry and a non-image entry, used to instantiate the reader
theorems. -/
def sampleZip : ZipArchive :=
  { entries := [("b.png", [0]), ("a.jpg", [1]), ("dir/", []), ("notes.txt", [2])] }

/-- A decoder that decodes every byte string to a 1×1 RGB image, used to
instantiate the reader theorems. -/
def sampleDecOk : List Nat → Option PILImage :=
  fun _ => some { mode := Mode.RGB, width := 1, height := 1
                  pixels := [{ r := 1, g := 2, b := 3, a := 7 }] }

/-- A decoder that fails on every byte string, used to instantiate the
failed-decode theorem. -/
def sampleDecFail : List Nat → Option PILImage :=
  fun _ => none

/-! ## Helper lemmas: the renderer's page loop -/

theorem entryPages_eq_pure (logo : Option PILImage) (footer : String)
    (idx : Nat) (images : List (String × PILImage))
    (h : ∀ p ∈ images, 0 < p.2.width ∧ 0 < p.2.height) :
    entryPages logo footer idx images =
      .ok (entryPagesPure logo footer idx images) := by
  induction images generalizing idx with
  | nil => rfl
  | cons p rest ih =>
    obtain ⟨name, img⟩ := p
    have h0 : 0 < img.width ∧ 0 < img.height := h (name, img) (List.mem_cons_self _ _)
    have hr := ih (idx + 1) (fun q hq => h q (List.mem_cons_of_mem _ hq))
    simp only [entryPages, entryPagesPure]
    rw [if_neg (by omega), hr]

theorem length_entryPagesPure (logo : Option PILImage) (footer : String)
    (idx : Nat) (images : List (String × PILImage)) :
    (entryPagesPure logo footer idx images).length = images.length := by
  induction images generalizing idx with
  | nil => rfl
  | cons p rest ih =>
    obtain ⟨name, img⟩ := p
    simp only [entryPagesPure, List.length_cons, ih]

theorem entryPagesPure_getElem? (logo : Option PILImage) (footer : String)
    (idx : Nat) (images : List (String × PILImage)) (j : Nat)
    (hj : j < images.length) :
    (entryPagesPure logo footer idx images)[j]? =
      some (entryPage logo footer (idx + j) (images[j]).1 (images[j]).2) := by
  induction images generalizing idx j with
  | nil => simp at hj
  | cons p rest ih =>
    obtain ⟨name, img⟩ := p
    cases j with
    | zero => simp [entryPagesPure]
    | succ j' =>
      have hj' : j' < rest.length := by simpa using hj
      simp only [entryPagesPure, List.getElem?_cons_succ, List.getElem_cons_succ]
      rw [ih (idx + 1) j' hj']
      congr 2
      omega

theorem build_catalog_pdf_ok (logo : Option PILImage)
    (images : List (String × PILImage)) (title subtitle footer today : String)
    (h : ∀ p ∈ images, 0 < p.2.width ∧ 0 < p.2.height) :
    build_catalog_pdf logo images title subtitle footer today =
      .ok { metaTitle := title
            pages := coverPage logo title subtitle footer today ::
              entryPagesPure logo footer 1 images } := by
  unfold build_catalog_pdf
  rw [entryPages_eq_pure logo footer 1 images h]

/-! ## C1 -/

/-- C1: on K entries (of nonzero dimensions, so the render succeeds),
`build_catalog_pdf` produces a document with exactly K+1 pages — the cover
page followed by one page per entry, in entry order; K = 0 yields a
cover-only document.  The page of the i-th entry (1-based) carries the bold
header `"Design NN"` (NN = the index zero-padded to width 2) and the line
`"Source: <entry name>"`. -/
theorem C1_page_count_and_headers (logo : Option PILImage)
    (images : List (String × PILImage)) (title subtitle footer today : String)
    (h : ∀ p ∈ images, 0 < p.2.width ∧ 0 < p.2.height) :
    ∃ doc, build_catalog_pdf logo images title subtitle footer today = .ok doc ∧
      doc.pages.length = images.length + 1 ∧
      doc.pages[0]? = some (coverPage logo title subtitle footer today) ∧
      ∀ i, (hi : i < images.length) →
        ∃ pg, doc.pages[i + 1]? = some pg ∧
          DrawOp.text "Helvetica-Bold" 18 (1.0 * inch) (pageH - 1.0 * inch)
            ("Design " ++ pad2 (i + 1)) ∈ pg ∧
          DrawOp.text "Helvetica" 10 (1.0 * inch) (pageH - 1.25 * inch)
            ("Source: " ++ (images[i]).1) ∈ pg := by
  refine ⟨{ metaTitle := title
            pages := coverPage logo title subtitle footer today ::
              entryPagesPure logo footer 1 images },
    build_catalog_pdf_ok logo images title subtitle footer today h, ?_, ?_, ?_⟩
  · simp [length_entryPagesPure]
  · simp
  · intro i hi
    refine ⟨entryPage logo footer (i + 1) (images[i]).1 (images[i]).2, ?_, ?_, ?_⟩
    · have heq := entryPagesPure_getElem? logo footer 1 images i hi
      simp only [List.getElem?_cons_succ]
      rw [heq, Nat.add_comm 1 i]
    · simp only [entryPage]
      exact List.mem_append_left _ (List.mem_append_left _ (List.mem_cons_self _ _))
    · simp only [entryPage]
      exact List.mem_append_left _ (List.mem_append_left _
        (List.mem_cons_of_mem _ (List.mem_cons_self _ _)))

/-- C1 witness: one 2×3 entry gives a two-page document whose second page is
headed "Design 01" with source line "Source: a.png". -/
theorem C1_witness :
    (∀ p ∈ sampleEntries, 0 < p.2.width ∧ 0 < p.2.height) ∧
    (∃ doc, build_catalog_pdf none sampleEntries "T" "S" "F" "2026-01-02" = .ok doc ∧
      doc.pages.length = sampleEntries.length + 1 ∧
      doc.pages[0]? = some (coverPage none "T" "S" "F" "2026-01-02") ∧
      ∀ i, (hi : i < sampleEntries.length) →
        ∃ pg, doc.pages[i + 1]? = some pg ∧
          DrawOp.text "Helvetica-Bold" 18 (1.0 * inch) (pageH - 1.0 * inch)
            ("Design " ++ pad2 (i + 1)) ∈ pg ∧
          DrawOp.text "Helvetica" 10 (1.0 * inch) (pageH - 1.25 * inch)
            ("Source: " ++ (sampleEntries[i]).1) ∈ pg) :=
  ⟨by decide, C1_page_count_and_headers none sampleEntries "T" "S" "F" "2026-01-02" (by decide)⟩

/-! ## C3 -/

theorem fit_width_le (bw bh : ℚ) (iw ih : Nat) (hw : 0 < iw) :
    (iw : ℚ) * min (bw / iw) (bh / ih) ≤ bw := by
  have hne : (iw : ℚ) ≠ 0 := Nat.cast_ne_zero.mpr (Nat.pos_iff_ne_zero.mp hw)
  have h1 : min (bw / iw) (bh / ih) ≤ bw / iw := min_le_left _ _
  have h2 : (iw : ℚ) * min (bw / iw) (bh / ih) ≤ (iw : ℚ) * (bw / iw) :=
    mul_le_mul_of_nonneg_left h1 (by positivity)
  calc (iw : ℚ) * min (bw / iw) (bh / ih) ≤ (iw : ℚ) * (bw / iw) := h2
    _ = bw := by rw [mul_comm, div_mul_cancel₀ _ hne]

theorem fit_height_le (bw bh : ℚ) (iw ih : Nat) (hh : 0 < ih) :
    (ih : ℚ) * min (bw / iw) (bh / ih) ≤ bh := by
  have hne : (ih : ℚ) ≠ 0 := Nat.cast_ne_zero.mpr (Nat.pos_iff_ne_zero.mp hh)
  have h1 : min (bw / iw) (bh / ih) ≤ bh / ih := min_le_right _ _
  have h2 : (ih : ℚ) * min (bw / iw) (bh / ih) ≤ (ih : ℚ) * (bh / ih) :=
    mul_le_mul_of_nonneg_left h1 (by positivity)
  calc (ih : ℚ) * min (bw / iw) (bh / ih) ≤ (ih : ℚ) * (bh / ih) := h2
    _ = bh := by rw [mul_comm, div_mul_cancel₀ _ hne]

/-- C3: each entry page draws its image with
`scale = min(boxW/imageW, boxH/imageH)`; the drawn rectangle preserves the
aspect ratio exactly (exact rational arithmetic), neither dimension exceeds
the content box (width `W − 2in`, height `H − 3in`), and the rectangle is
centred in the box at `x = margin + (boxW − drawW)/2`,
`y = 1.2in + (boxH − drawH)/2`. -/
theorem C3_image_fit (logo : Option PILImage)
    (images : List (String × PILImage)) (title subtitle footer today : String)
    (h : ∀ p ∈ images, 0 < p.2.width ∧ 0 < p.2.height) :
    ∃ doc, build_catalog_pdf logo images title subtitle footer today = .ok doc ∧
      ∀ i, (hi : i < images.length) →
        ∃ pg, doc.pages[i + 1]? = some pg ∧
          ∃ w hgt x y, DrawOp.image (img_to_reader (images[i]).2) x y w hgt ∈ pg ∧
            w = ((images[i]).2.width : ℚ) *
              min ((pageW - 2 * (1.0 * inch)) / ((images[i]).2.width : ℚ))
                ((pageH - 3.0 * inch) / ((images[i]).2.height : ℚ)) ∧
            hgt = ((images[i]).2.height : ℚ) *
              min ((pageW - 2 * (1.0 * inch)) / ((images[i]).2.width : ℚ))
                ((pageH - 3.0 * inch) / ((images[i]).2.height : ℚ)) ∧
            w ≤ pageW - 2 * (1.0 * inch) ∧
            hgt ≤ pageH - 3.0 * inch ∧
            w * ((images[i]).2.height : ℚ) = hgt * ((images[i]).2.width : ℚ) ∧
            x = 1.0 * inch + ((pageW - 2 * (1.0 * inch)) - w) / 2 ∧
            y = 1.2 * inch + ((pageH - 3.0 * inch) - hgt) / 2 := by
  refine ⟨{ metaTitle := title
            pages := coverPage logo title subtitle footer today ::
              entryPagesPure logo footer 1 images },
    build_catalog_pdf_ok logo images title subtitle footer today h, ?_⟩
  intro i hi
  have hpos := h (images[i]) (List.getElem_mem hi)
  refine ⟨entryPage logo footer (i + 1) (images[i]).1 (images[i]).2, ?_, ?_⟩
  · have heq := entryPagesPure_getElem? logo footer 1 images i hi
    simp only [List.getElem?_cons_succ]
    rw [heq, Nat.add_comm 1 i]
  · refine ⟨_, _, _, _, ?_, rfl, rfl, ?_, ?_, by ring, rfl, rfl⟩
    · simp only [entryPage]
      exact List.mem_append_right _ (List.mem_cons_self _ _)
    · exact fit_width_le _ _ _ _ hpos.1
    · exact fit_height_le _ _ _ _ hpos.2

/-- C3 witness: the fit property instantiated on a concrete 2×3 entry. -/
theorem C3_witness :
    (∀ p ∈ sampleEntries, 0 < p.2.width ∧ 0 < p.2.height) ∧
    (∃ doc, build_catalog_pdf none sampleEntries "T" "S" "F" "D" = .ok doc ∧
      ∀ i, (hi : i < sampleEntries.length) →
        ∃ pg, doc.pages[i + 1]? = some pg ∧
          ∃ w hgt x y,
            DrawOp.image (img_to_reader (sampleEntries[i]).2) x y w hgt ∈ pg ∧
            w = ((sampleEntries[i]).2.width : ℚ) *
              min ((pageW - 2 * (1.0 * inch)) / ((sampleEntries[i]).2.width : ℚ))
                ((pageH - 3.0 * inch) / ((sampleEntries[i]).2.height : ℚ)) ∧
            hgt = ((sampleEntries[i]).2.height : ℚ) *
              min ((pageW - 2 * (1.0 * inch)) / ((sampleEntries[i]).2.width : ℚ))
                ((pageH - 3.0 * inch) / ((sampleEntries[i]).2.height : ℚ)) ∧
            w ≤ pageW - 2 * (1.0 * inch) ∧
            hgt ≤ pageH - 3.0 * inch ∧
            w * ((sampleEntries[i]).2.height : ℚ) = hgt * ((sampleEntries[i]).2.width : ℚ) ∧
            x = 1.0 * inch + ((pageW - 2 * (1.0 * inch)) - w) / 2 ∧
            y = 1.2 * inch + ((pageH - 3.0 * inch) - hgt) / 2) :=
  ⟨by decide, C3_image_fit none sampleEntries "T" "S" "F" "D" (by decide)⟩

/-! ## C4 -/

theorem entryPages_err (logo : Option PILImage) (footer : String)
    (idx : Nat) (images : List (String × PILImage))
    (h : ∃ p ∈ images, p.2.width = 0 ∨ p.2.height = 0) :
    entryPages logo footer idx images =
      .error (PyErr.zeroDivisionError "float division by zero") := by
  induction images generalizing idx with
  | nil => simp at h
  | cons q rest ih =>
    obtain ⟨name, img⟩ := q
    by_cases h0 : img.width = 0 ∨ img.height = 0
    · simp only [entryPages]
      rw [if_pos h0]
    · obtain ⟨p, hp, hzero⟩ := h
      rcases List.mem_cons.mp hp with heq | hmem
      · subst heq; exact absurd hzero h0
      · simp only [entryPages]
        rw [if_neg h0, ih (idx + 1) ⟨p, hmem, hzero⟩]

/-- C4 counterexample: on an entry whose image has zero width the render does
fail and returns no document, but not with an error naming the offending
entry: the error is Python's constant `ZeroDivisionError("float division by
zero")` — its message does not contain the entry name, and renaming the
entry leaves the error unchanged, so the error cannot identify the entry. -/
theorem C4_counterexample :
    build_catalog_pdf none
        [("bad.png", { mode := Mode.RGBA, width := 0, height := 7, pixels := [] })]
        "T" "S" "F" "D" =
      .error (PyErr.zeroDivisionError "float division by zero") ∧
    build_catalog_pdf none
        [("other.jpg", { mode := Mode.RGBA, width := 0, height := 7, pixels := [] })]
        "T" "S" "F" "D" =
      .error (PyErr.zeroDivisionError "float division by zero") ∧
    pyIn "bad.png" (PyErr.zeroDivisionError "float division by zero").msg = false :=
  ⟨rfl, rfl, rfl⟩

/-- C4 (amended): an entry image with zero width or zero height makes
`build_catalog_pdf` fail — with the constant `ZeroDivisionError`
`"float division by zero"`, which does not name the offending entry — and no
document bytes are returned. -/
theorem C4_zero_dim_fails (logo : Option PILImage)
    (images : List (String × PILImage)) (title subtitle footer today : String)
    (h : ∃ p ∈ images, p.2.width = 0 ∨ p.2.height = 0) :
    build_catalog_pdf logo images title subtitle footer today =
      .error (PyErr.zeroDivisionError "float division by zero") := by
  unfold build_catalog_pdf
  rw [entryPages_err logo footer 1 images h]

/-- C4 witness: the amended failure theorem instantiated on a concrete
zero-width entry. -/
theorem C4_witness :
    (∃ p ∈ [("bad.png",
        ({ mode := Mode.RGBA, width := 0, height := 7, pixels := [] } : PILImage))],
      p.2.width = 0 ∨ p.2.height = 0) ∧
    build_catalog_pdf none
        [("bad.png", { mode := Mode.RGBA, width := 0, height := 7, pixels := [] })]
        "T" "S" "F" "D" =
      .error (PyErr.zeroDivisionError "float division by zero") :=
  ⟨by decide,
    C4_zero_dim_fails none
      [("bad.png", { mode := Mode.RGBA, width := 0, height := 7, pixels := [] })]
      "T" "S" "F" "D" (by decide)⟩

/-! ## C8 -/

/-- C8: the text fields are not validated and cannot make the render fail:
for every title, subtitle and footer (of any length and content) the render
of entries with nonzero image dimensions succeeds and returns the complete
(K+1)-page document. -/
theorem C8_text_never_fails (logo : Option PILImage)
    (images : List (String × PILImage)) (title subtitle footer today : String)
    (h : ∀ p ∈ images, 0 < p.2.width ∧ 0 < p.2.height) :
    ∃ doc, build_catalog_pdf logo images title subtitle footer today = .ok doc ∧
      doc.pages.length = images.length + 1 :=
  ⟨{ metaTitle := title
     pages := coverPage logo title subtitle footer today ::
       entryPagesPure logo footer 1 images },
    build_catalog_pdf_ok logo images title subtitle footer today h,
    by simp [length_entryPagesPure]⟩

/-- A 5000-character text field, to instantiate the no-text-validation
theorem. -/
def longText : String :=
  String.mk (List.replicate 5000 'x')

/-- C8 witness: the render succeeds with 5000-character title, subtitle and
footer fields. -/
theorem C8_witness :
    (∀ p ∈ sampleEntries, 0 < p.2.width ∧ 0 < p.2.height) ∧
    (∃ doc, build_catalog_pdf none sampleEntries longText longText longText "D" = .ok doc ∧
      doc.pages.length = sampleEntries.length + 1) :=
  ⟨by decide, C8_text_never_fails none sampleEntries longText longText longText "D" (by decide)⟩

/-! ## C10 -/

/-- C10: whenever `build_catalog_pdf` produces a document, the document's
embedded metadata title (`c.setTitle(title)`) equals the `title` argument,
and the title is also drawn on the cover page in Helvetica-Bold 26 at
`(1in, H − 1.4in)`. -/
theorem C10_meta_title (logo : Option PILImage)
    (images : List (String × PILImage)) (title subtitle footer today : String)
    (doc : PDFDoc)
    (h : build_catalog_pdf logo images title subtitle footer today = .ok doc) :
    doc.metaTitle = title ∧
    ∃ cover, doc.pages.head? = some cover ∧
      DrawOp.text "Helvetica-Bold" 26 (1.0 * inch) (pageH - 1.4 * inch) title ∈ cover := by
  unfold build_catalog_pdf at h
  cases he : entryPages logo footer 1 images with
  | error e => rw [he] at h; simp at h
  | ok ps =>
    rw [he] at h
    simp only [Except.ok.injEq] at h
    subst h
    refine ⟨rfl, coverPage logo title subtitle footer today, by simp, ?_⟩
    simp only [coverPage]
    exact List.mem_append_left _ (List.mem_append_left _ (List.mem_cons_self _ _))

/-- C10 witness: the metadata-title property instantiated on a concrete
render. -/
theorem C10_witness :
    ({ metaTitle := "T"
       pages := coverPage none "T" "S" "F" "D" ::
         entryPagesPure none "F" 1 sampleEntries } : PDFDoc).metaTitle = "T" ∧
    ∃ cover,
      ({ metaTitle := "T"
         pages := coverPage none "T" "S" "F" "D" ::
           entryPagesPure none "F" 1 sampleEntries } : PDFDoc).pages.head? = some cover ∧
      DrawOp.text "Helvetica-Bold" 26 (1.0 * inch) (pageH - 1.4 * inch) "T" ∈ cover :=
  C10_meta_title none sampleEntries "T" "S" "F" "D" _ rfl

/-! ## C6 -/

theorem entry_draw_boundary (iw ih : Nat) (hw : 0 < iw) (hh : 0 < ih) :
    (iw : ℚ) * min ((pageW - 2 * (1.0 * inch)) / (iw : ℚ))
        ((pageH - 3.0 * inch) / (ih : ℚ)) = pageW - 2 * (1.0 * inch) ∨
    (ih : ℚ) * min ((pageW - 2 * (1.0 * inch)) / (iw : ℚ))
        ((pageH - 3.0 * inch) / (ih : ℚ)) = pageH - 3.0 * inch := by
  have hwne : (iw : ℚ) ≠ 0 := Nat.cast_ne_zero.mpr (Nat.pos_iff_ne_zero.mp hw)
  have hhne : (ih : ℚ) ≠ 0 := Nat.cast_ne_zero.mpr (Nat.pos_iff_ne_zero.mp hh)
  rcases le_total ((pageW - 2 * (1.0 * inch)) / (iw : ℚ))
      ((pageH - 3.0 * inch) / (ih : ℚ)) with hle | hle
  · left
    rw [min_eq_left hle, mul_comm, div_mul_cancel₀ _ hwne]
  · right
    rw [min_eq_right hle, mul_comm, div_mul_cancel₀ _ hhne]

theorem isLogoOp_image_eq_false (im : PILImage) (x y w hgt : ℚ)
    (hcase : w = pageW - 2 * (1.0 * inch) ∨ hgt = pageH - 3.0 * inch) :
    isLogoOp (DrawOp.image im x y w hgt) = false := by
  rcases hcase with hc | hc <;> subst hc <;>
    simp [isLogoOp, pageW, pageH, inch] <;> norm_num

theorem coverPage_filter (l : PILImage) (t s f d : String) :
    (coverPage (some l) t s f d).filter (fun op => !isLogoOp op) =
      coverPage none t s f d := by
  simp [coverPage, isLogoOp]

theorem entryPage_filter (l : PILImage) (f n : String) (idx : Nat)
    (img : PILImage) (hw : 0 < img.width) (hh : 0 < img.height) :
    (entryPage (some l) f idx n img).filter (fun op => !isLogoOp op) =
      entryPage none f idx n img := by
  rcases entry_draw_boundary img.width img.height hw hh with hc | hc <;>
    · simp only [entryPage]
      rw [hc]
      simp [isLogoOp, pageW, pageH, inch]
      norm_num

theorem entryPagesPure_filter (l : PILImage) (f : String) (idx : Nat)
    (images : List (String × PILImage))
    (h : ∀ p ∈ images, 0 < p.2.width ∧ 0 < p.2.height) :
    (entryPagesPure (some l) f idx images).map
        (fun pg => pg.filter (fun op => !isLogoOp op)) =
      entryPagesPure none f idx images := by
  induction images generalizing idx with
  | nil => rfl
  | cons q rest ih =>
    obtain ⟨name, img⟩ := q
    have h0 : 0 < img.width ∧ 0 < img.height := h (name, img) (List.mem_cons_self _ _)
    simp only [entryPagesPure, List.map_cons]
    rw [entryPage_filter l f name idx img h0.1 h0.2,
      ih (idx + 1) (fun q hq => h q (List.mem_cons_of_mem _ hq))]

/-- C6: the logo is a frame effect.  With all entry images of nonzero
dimensions, rendering without a logo succeeds exactly like rendering with
one and produces a structurally identical document — same metadata, same
page count, and page by page the same draw operations in the same order and
at the same positions — except that the two logo placements are absent:
removing the logo operations from the with-logo document yields the
no-logo document. -/
theorem C6_logo_frame (l : PILImage) (images : List (String × PILImage))
    (title subtitle footer today : String)
    (h : ∀ p ∈ images, 0 < p.2.width ∧ 0 < p.2.height) :
    ∃ docL docN,
      build_catalog_pdf (some l) images title subtitle footer today = .ok docL ∧
      build_catalog_pdf none images title subtitle footer today = .ok docN ∧
      docN.metaTitle = docL.metaTitle ∧
      docN.pages.length = docL.pages.length ∧
      docN.pages = docL.pages.map (fun pg => pg.filter (fun op => !isLogoOp op)) := by
  refine ⟨{ metaTitle := title
            pages := coverPage (some l) title subtitle footer today ::
              entryPagesPure (some l) footer 1 images },
    { metaTitle := title
      pages := coverPage none title subtitle footer today ::
        entryPagesPure none footer 1 images },
    build_catalog_pdf_ok (some l) images title subtitle footer today h,
    build_catalog_pdf_ok none images title subtitle footer today h,
    rfl, ?_, ?_⟩
  · simp [length_entryPagesPure]
  · simp only [List.map_cons]
    rw [coverPage_filter, entryPagesPure_filter l footer 1 images h]

/-- C6 witness: the frame property instantiated on a concrete logo and a
concrete 2×3 entry. -/
theorem C6_witness :
    (∀ p ∈ sampleEntries, 0 < p.2.width ∧ 0 < p.2.height) ∧
    (∃ docL docN,
      build_catalog_pdf (some sampleLogo) sampleEntries "T" "S" "F" "D" = .ok docL ∧
      build_catalog_pdf none sampleEntries "T" "S" "F" "D" = .ok docN ∧
      docN.metaTitle = docL.metaTitle ∧
      docN.pages.length = docL.pages.length ∧
      docN.pages = docL.pages.map (fun pg => pg.filter (fun op => !isLogoOp op))) :=
  ⟨by decide, C6_logo_frame sampleLogo sampleEntries "T" "S" "F" "D" (by decide)⟩

/-! ## C7 -/

theorem coverPage_scrub (logo : Option PILImage) (t s f d d' : String) :
    (coverPage logo t s f d).map scrubOp = (coverPage logo t s f d').map scrubOp := by
  cases logo <;> simp [coverPage, scrubOp]

/-- C7: the render is a pure function of its inputs, and the current date
enters the output only through the generated-date line of the cover: two
renders of the same request on different dates agree exactly after blanking
the one date-carrying text operation (font size 11 at `(1in, H − 2.2in)`);
on the same date the outputs are literally equal. -/
theorem C7_date_determinism (logo : Option PILImage)
    (images : List (String × PILImage)) (title subtitle footer : String)
    (d1 d2 : String)
    (h : ∀ p ∈ images, 0 < p.2.width ∧ 0 < p.2.height) :
    ∃ doc1 doc2,
      build_catalog_pdf logo images title subtitle footer d1 = .ok doc1 ∧
      build_catalog_pdf logo images title subtitle footer d2 = .ok doc2 ∧
      scrubDoc doc1 = scrubDoc doc2 := by
  refine ⟨{ metaTitle := title
            pages := coverPage logo title subtitle footer d1 ::
              entryPagesPure logo footer 1 images },
    { metaTitle := title
      pages := coverPage logo title subtitle footer d2 ::
        entryPagesPure logo footer 1 images },
    build_catalog_pdf_ok logo images title subtitle footer d1 h,
    build_catalog_pdf_ok logo images title subtitle footer d2 h, ?_⟩
  simp only [scrubDoc, List.map_cons]
  rw [coverPage_scrub logo title subtitle footer d1 d2]

/-- C7 witness: renders on two different dates, equal after blanking the
generated-date line. -/
theorem C7_witness :
    (∀ p ∈ sampleEntries, 0 < p.2.width ∧ 0 < p.2.height) ∧
    (∃ doc1 doc2,
      build_catalog_pdf none sampleEntries "T" "S" "F" "2026-01-02" = .ok doc1 ∧
      build_catalog_pdf none sampleEntries "T" "S" "F" "2027-12-31" = .ok doc2 ∧
      scrubDoc doc1 = scrubDoc doc2) :=
  ⟨by decide,
    C7_date_determinism none sampleEntries "T" "S" "F" "2026-01-02" "2027-12-31" (by decide)⟩

/-! ## C5 -/

theorem muldiv255_bounds (a b : Nat) (ha : a ≤ 255) (hb : b ≤ 255) :
    2 * (a * b) ≤ 510 * muldiv255 a b + 255 ∧
      510 * muldiv255 a b ≤ 2 * (a * b) + 255 := by
  have hab : a * b ≤ 65025 := Nat.mul_le_mul ha hb
  unfold muldiv255
  generalize a * b = x at hab ⊢
  omega

theorem muldiv255_255_right (a : Nat) (ha : a ≤ 255) : muldiv255 a 255 = a := by
  unfold muldiv255
  omega

theorem muldiv255_zero_right (a : Nat) : muldiv255 a 0 = 0 := by
  unfold muldiv255
  omega

theorem img_to_reader_mode (img : PILImage) : (img_to_reader img).mode = Mode.RGB := by
  cases h : img.mode <;> simp [img_to_reader, h]

theorem mem_entryPages_ok (logo : Option PILImage) (f : String) :
    ∀ (idx : Nat) (images : List (String × PILImage)) (ps : List (List DrawOp)),
      entryPages logo f idx images = .ok ps →
      ∀ pg ∈ ps, ∃ j n im, pg = entryPage logo f j n im := by
  intro idx images
  induction images generalizing idx with
  | nil =>
    intro ps hps pg hpg
    simp only [entryPages, Except.ok.injEq] at hps
    subst hps
    simp at hpg
  | cons q rest ih =>
    obtain ⟨name, img⟩ := q
    intro ps hps pg hpg
    simp only [entryPages] at hps
    by_cases h0 : img.width = 0 ∨ img.height = 0
    · rw [if_pos h0] at hps; exact absurd hps (by simp)
    · rw [if_neg h0] at hps
      cases he : entryPages logo f (idx + 1) rest with
      | error e => rw [he] at hps; exact absurd hps (by simp)
      | ok ps' =>
        rw [he] at hps
        simp only [Except.ok.injEq] at hps
        subst hps
        rcases List.mem_cons.mp hpg with hh | ht
        · exact ⟨idx, name, img, hh⟩
        · exact ih (idx + 1) ps' he pg ht

/-- C5: every image embedded in the output went through `img_to_reader`,
which never emits transparency: its result is an RGB image of the same size;
an RGBA input is composited pixel by pixel onto an opaque white background
by PIL's fixed-point blend (each channel within 1 of the exact rational
alpha-blend against white, exact at full and zero alpha) and the alpha
channel is discarded; a non-alpha input is converted to plain RGB. -/
theorem C5_white_compositing :
    (∀ img : PILImage,
      (img_to_reader img).mode = Mode.RGB ∧
      (img_to_reader img).width = img.width ∧
      (img_to_reader img).height = img.height ∧
      (img.mode = Mode.RGBA →
        (img_to_reader img).pixels = img.pixels.map blendWhite) ∧
      (img.mode = Mode.RGB →
        (img_to_reader img).pixels = img.pixels.map fun p => { p with a := 255 })) ∧
    (∀ p : Pixel, p.r ≤ 255 → p.g ≤ 255 → p.b ≤ 255 → p.a ≤ 255 →
      (blendWhite p).a = 255 ∧
      (2 * (255 * (255 - p.a) + p.r * p.a) ≤ 510 * (blendWhite p).r + 510 ∧
        510 * (blendWhite p).r ≤ 2 * (255 * (255 - p.a) + p.r * p.a) + 510) ∧
      (2 * (255 * (255 - p.a) + p.g * p.a) ≤ 510 * (blendWhite p).g + 510 ∧
        510 * (blendWhite p).g ≤ 2 * (255 * (255 - p.a) + p.g * p.a) + 510) ∧
      (2 * (255 * (255 - p.a) + p.b * p.a) ≤ 510 * (blendWhite p).b + 510 ∧
        510 * (blendWhite p).b ≤ 2 * (255 * (255 - p.a) + p.b * p.a) + 510) ∧
      (p.a = 255 → blendWhite p = { r := p.r, g := p.g, b := p.b, a := 255 }) ∧
      (p.a = 0 → blendWhite p = { r := 255, g := 255, b := 255, a := 255 })) ∧
    (∀ (logo : Option PILImage) (images : List (String × PILImage))
        (title subtitle footer today : String) (doc : PDFDoc),
      build_catalog_pdf logo images title subtitle footer today = .ok doc →
      ∀ pg ∈ doc.pages, ∀ im x y w hgt, DrawOp.image im x y w hgt ∈ pg →
        im.mode = Mode.RGB ∧ ∃ src, im = img_to_reader src) := by
  refine ⟨?_, ?_, ?_⟩
  · intro img
    cases h : img.mode <;> simp [img_to_reader, h]
  · intro p hr hg hb ha
    have b255 : 255 - p.a ≤ 255 := by omega
    have w1 := muldiv255_bounds 255 (255 - p.a) (le_refl 255) b255
    have w2 := muldiv255_bounds p.r p.a hr ha
    have w3 := muldiv255_bounds p.g p.a hg ha
    have w4 := muldiv255_bounds p.b p.a hb ha
    have e1 : 255 * (255 - p.a) ≤ 65025 := by omega
    refine ⟨rfl, ?_, ?_, ?_, ?_, ?_⟩
    · simp only [blendWhite]
      generalize p.r * p.a = z at w2 ⊢
      omega
    · simp only [blendWhite]
      generalize p.g * p.a = z at w3 ⊢
      omega
    · simp only [blendWhite]
      generalize p.b * p.a = z at w4 ⊢
      omega
    · intro h255
      simp only [blendWhite, h255, Nat.sub_self, muldiv255_zero_right,
        muldiv255_255_right p.r hr, muldiv255_255_right p.g hg,
        muldiv255_255_right p.b hb, Nat.zero_add]
    · intro h0
      simp only [blendWhite, h0, Nat.sub_zero, muldiv255_zero_right,
        muldiv255_255_right 255 (le_refl 255), Nat.add_zero]
  · intro logo images title subtitle footer today doc hok pg hpg im x y w hgt hmem
    unfold build_catalog_pdf at hok
    cases he : entryPages logo footer 1 images with
    | error e => rw [he] at hok; exact absurd hok (by simp)
    | ok ps =>
      rw [he] at hok
      simp only [Except.ok.injEq] at hok
      subst hok
      have hmode := img_to_reader_mode
      rcases List.mem_cons.mp hpg with hcov | hrest
      · subst hcov
        cases logo with
        | none => simp [coverPage] at hmem
        | some l =>
          simp [coverPage] at hmem
          obtain ⟨him, -⟩ := hmem
          exact ⟨him ▸ hmode l, l, him⟩
      · obtain ⟨j, n, im', hpg'⟩ := mem_entryPages_ok logo footer 1 images ps he pg hrest
        subst hpg'
        cases logo with
        | none =>
          simp [entryPage] at hmem
          obtain ⟨him, -⟩ := hmem
          exact ⟨him ▸ hmode im', im', him⟩
        | some l =>
          simp [entryPage] at hmem
          rcases hmem with ⟨him, -⟩ | ⟨him, -⟩
          · exact ⟨him ▸ hmode l, l, him⟩
          · exact ⟨him ▸ hmode im', im', him⟩

/-- C5 witness: the compositing facts instantiated on a concrete RGBA image
and a concrete half-transparent pixel. -/
theorem C5_witness :
    (img_to_reader sampleImg).mode = Mode.RGB ∧
    (sampleImg.mode = Mode.RGBA →
      (img_to_reader sampleImg).pixels = sampleImg.pixels.map blendWhite) ∧
    (({ r := 10, g := 20, b := 30, a := 40 } : Pixel).a = 255 →
      blendWhite { r := 10, g := 20, b := 30, a := 40 } =
        { r := 10, g := 20, b := 30, a := 255 }) ∧
    2 * (255 * (255 - 40) + 10 * 40) ≤
      510 * (blendWhite { r := 10, g := 20, b := 30, a := 40 }).r + 510 :=
  ⟨(C5_white_compositing.1 sampleImg).1,
    (C5_white_compositing.1 sampleImg).2.2.2.1,
    ((C5_white_compositing.2.1 { r := 10, g := 20, b := 30, a := 40 }
      (by decide) (by decide) (by decide) (by decide)).2.2.2.2.1),
    ((C5_white_compositing.2.1 { r := 10, g := 20, b := 30, a := 40 }
      (by decide) (by decide) (by decide) (by decide)).2.1).1⟩

/-! ## Helper lemmas: the Python string order and the archive reader -/

theorem pyCharsLe_total : ∀ as bs : List Char,
    pyCharsLe as bs = true ∨ pyCharsLe bs as = true := by
  intro as
  induction as with
  | nil => intro bs; left; cases bs <;> rfl
  | cons a as ih =>
    intro bs
    cases bs with
    | nil => right; rfl
    | cons b bs =>
      by_cases hab : a = b
      · subst hab
        simp only [pyCharsLe, if_pos rfl]
        exact ih bs
      · rcases lt_or_gt_of_ne hab with hlt | hgt
        · left
          simp only [pyCharsLe]
          rw [if_neg hab]
          exact decide_eq_true hlt
        · right
          simp only [pyCharsLe]
          rw [if_neg fun hba => hab hba.symm]
          exact decide_eq_true hgt

theorem pyCharsLe_trans : ∀ as bs cs : List Char,
    pyCharsLe as bs = true → pyCharsLe bs cs = true → pyCharsLe as cs = true := by
  intro as
  induction as with
  | nil => intro bs cs _ _; cases cs <;> rfl
  | cons a as ih =>
    intro bs cs h1 h2
    cases bs with
    | nil => simp [pyCharsLe] at h1
    | cons b bs =>
      cases cs with
      | nil => simp [pyCharsLe] at h2
      | cons c cs =>
        simp only [pyCharsLe] at h1 h2 ⊢
        by_cases hab : a = b
        · subst hab
          rw [if_pos rfl] at h1
          by_cases hac : a = c
          · subst hac
            rw [if_pos rfl] at h2 ⊢
            exact ih bs cs h1 h2
          · rw [if_neg hac] at h2 ⊢
            exact h2
        · rw [if_neg hab] at h1
          have hlt : a < b := of_decide_eq_true h1
          by_cases hbc : b = c
          · subst hbc
            rw [if_neg hab]
            exact decide_eq_true hlt
          · rw [if_neg hbc] at h2
            have hlt2 : b < c := of_decide_eq_true h2
            have hac : a < c := lt_trans hlt hlt2
            rw [if_neg (ne_of_lt hac)]
            exact decide_eq_true hac

theorem pySorted_sorted (l : List String) : List.Pairwise pyLe (pySorted l) := by
  haveI : IsTotal String pyLe := ⟨fun a b => pyCharsLe_total a.data b.data⟩
  haveI : IsTrans String pyLe := ⟨fun a b c => pyCharsLe_trans a.data b.data c.data⟩
  exact List.sorted_insertionSort pyLe l

theorem pySorted_perm (l : List String) : (pySorted l).Perm l :=
  List.perm_insertionSort pyLe l

theorem startsWithSeg_head (l : List Char) (b : Char) (bs : List Char)
    (h : startsWithSeg l (b :: bs) = true) : l.head? = some b := by
  cases l with
  | nil => simp [startsWithSeg] at h
  | cons a as =>
    simp only [startsWithSeg, Bool.and_eq_true, decide_eq_true_eq] at h
    simp [h.1]

theorem isImageName_last_lower (n : String) (h : isImageName n = true) :
    (n.data.reverse.map Char.toLower).head? = some 'g' := by
  unfold isImageName pyEndsWith pyLower at h
  rw [List.map_reverse]
  simp only [Bool.or_eq_true] at h
  rcases h with (h | h) | h
  · have hp : (".png".data.reverse) = ['g', 'n', 'p', '.'] := rfl
    rw [hp] at h
    exact startsWithSeg_head _ _ _ h
  · have hp : (".jpg".data.reverse) = ['g', 'p', 'j', '.'] := rfl
    rw [hp] at h
    exact startsWithSeg_head _ _ _ h
  · have hp : (".jpeg".data.reverse) = ['g', 'e', 'p', 'j', '.'] := rfl
    rw [hp] at h
    exact startsWithSeg_head _ _ _ h

theorem isImageName_not_dir (n : String) (h : isImageName n = true) :
    pyEndsWith n "/" = false := by
  have hg := isImageName_last_lower n h
  by_contra hcon
  have htrue : pyEndsWith n "/" = true := by
    cases hpe : pyEndsWith n "/" with
    | false => exact absurd hpe hcon
    | true => rfl
  have hslash : n.data.reverse.head? = some '/' := by
    unfold pyEndsWith at htrue
    have hconc : ("/".data.reverse) = ['/'] := rfl
    rw [hconc] at htrue
    exact startsWithSeg_head _ _ _ htrue
  rw [List.head?_map, hslash] at hg
  simp only [Option.map_some'] at hg
  exact absurd (Option.some.inj hg) (by decide)

theorem convertRGBA_mode (img : PILImage) : (convertRGBA img).mode = Mode.RGBA := by
  cases h : img.mode <;> simp [convertRGBA, h]

theorem read_zip_loop_ok (dec : List Nat → Option PILImage) (z : ZipArchive) :
    ∀ names : List String,
      (∀ n ∈ names, isImageName n = true → (dec (z.readEntry n)).isSome) →
      ∃ out, read_zip_loop dec z names = .ok out ∧
        out.map Prod.fst = names.filter (fun n => isImageName n) ∧
        ∀ p ∈ out, ∃ img, dec (z.readEntry p.1) = some img ∧ p.2 = convertRGBA img := by
  intro names
  induction names with
  | nil => intro _; exact ⟨[], rfl, rfl, by simp⟩
  | cons n rest ih =>
    intro h
    obtain ⟨out, hout, hmap, hdec⟩ := ih fun m hm => h m (List.mem_cons_of_mem _ hm)
    by_cases hn : isImageName n = true
    · have hsome := h n (List.mem_cons_self _ _) hn
      obtain ⟨img, himg⟩ := Option.isSome_iff_exists.mp hsome
      refine ⟨(n, convertRGBA img) :: out, ?_, ?_, ?_⟩
      · simp only [read_zip_loop]
        rw [if_pos hn, himg, hout]
      · simp [hmap, hn]
      · intro p hp
        rcases List.mem_cons.mp hp with hph | hpt
        · subst hph; exact ⟨img, himg, rfl⟩
        · exact hdec p hpt
    · refine ⟨out, ?_, ?_, hdec⟩
      · simp only [read_zip_loop]
        rw [if_neg hn]
        exact hout
      · rw [hmap]
        simp [List.filter_cons, hn]

theorem read_zip_loop_err (dec : List Nat → Option PILImage) (z : ZipArchive) :
    ∀ names : List String,
      (∃ n ∈ names, isImageName n = true ∧ dec (z.readEntry n) = none) →
      read_zip_loop dec z names = .error PyErr.unidentifiedImageError := by
  intro names
  induction names with
  | nil => intro h; simp at h
  | cons m rest ih =>
    intro h
    by_cases hm : isImageName m = true
    · cases hd : dec (z.readEntry m) with
      | none =>
        simp only [read_zip_loop]
        rw [if_pos hm, hd]
      | some img =>
        obtain ⟨n, hn, hni, hnd⟩ := h
        rcases List.mem_cons.mp hn with he | hmem
        · subst he
          rw [hd] at hnd
          exact absurd hnd (by simp)
        · simp only [read_zip_loop]
          rw [if_pos hm, hd, ih ⟨n, hmem, hni, hnd⟩]
    · obtain ⟨n, hn, hni, hnd⟩ := h
      rcases List.mem_cons.mp hn with he | hmem
      · subst he; exact absurd hni hm
      · simp only [read_zip_loop]
        rw [if_neg hm]
        exact ih ⟨n, hmem, hni, hnd⟩

/-! ## C2 -/

/-- C2: on an archive whose image-named entries all decode,
`read_zip_images` returns exactly one (name, image) pair per entry whose
name case-insensitively ends in `.png`/`.jpg`/`.jpeg` — the output's name
sequence is precisely the image-suffixed part of the sorted name list, in
ascending lexicographic order — with every image decoded and normalised to
RGBA, and with directory entries (names ending in `"/"`) and unrecognised
suffixes never appearing. -/
theorem C2_extract_images (dec : List Nat → Option PILImage) (z : ZipArchive)
    (h : ∀ n ∈ z.namelist, isImageName n = true → (dec (z.readEntry n)).isSome) :
    ∃ out, read_zip_images dec z = .ok out ∧
      out.map Prod.fst = (pySorted z.namelist).filter (fun n => isImageName n) ∧
      List.Pairwise pyLe (out.map Prod.fst) ∧
      ∀ p ∈ out, isImageName p.1 = true ∧ pyEndsWith p.1 "/" = false ∧
        p.2.mode = Mode.RGBA ∧
        ∃ img, dec (z.readEntry p.1) = some img ∧ p.2 = convertRGBA img := by
  have hs : ∀ n ∈ pySorted z.namelist, isImageName n = true →
      (dec (z.readEntry n)).isSome :=
    fun n hn => h n ((pySorted_perm z.namelist).subset hn)
  obtain ⟨out, hout, hmap, hdec⟩ := read_zip_loop_ok dec z (pySorted z.namelist) hs
  refine ⟨out, hout, hmap, ?_, ?_⟩
  · rw [hmap]
    exact (pySorted_sorted z.namelist).filter _
  · intro p hp
    have hmem : p.1 ∈ out.map Prod.fst := List.mem_map_of_mem _ hp
    rw [hmap] at hmem
    have himg : isImageName p.1 = true := by
      simpa using List.of_mem_filter hmem
    obtain ⟨img, hdeceq, hconv⟩ := hdec p hp
    refine ⟨himg, isImageName_not_dir p.1 himg, ?_, img, hdeceq, hconv⟩
    rw [hconv]
    exact convertRGBA_mode img

/-- C2 witness: the reader property instantiated on a concrete archive with
two image entries listed out of order, a directory entry and a text entry. -/
theorem C2_witness :
    (∀ n ∈ sampleZip.namelist, isImageName n = true →
      (sampleDecOk (sampleZip.readEntry n)).isSome) ∧
    (∃ out, read_zip_images sampleDecOk sampleZip = .ok out ∧
      out.map Prod.fst = (pySorted sampleZip.namelist).filter (fun n => isImageName n) ∧
      List.Pairwise pyLe (out.map Prod.fst) ∧
      ∀ p ∈ out, isImageName p.1 = true ∧ pyEndsWith p.1 "/" = false ∧
        p.2.mode = Mode.RGBA ∧
        ∃ img, sampleDecOk (sampleZip.readEntry p.1) = some img ∧
          p.2 = convertRGBA img) :=
  ⟨by decide, C2_extract_images sampleDecOk sampleZip (by decide)⟩

/-! ## C9 -/

/-- C9: if some entry with a recognised image suffix fails to decode, the
whole extraction fails with the decoder's error (`PIL.UnidentifiedImageError`
left unhandled by `read_zip_images`) and no pairs are returned: the
implementation resolves the spec's open question by aborting, not by
skipping. -/
theorem C9_undecodable_aborts (dec : List Nat → Option PILImage) (z : ZipArchive)
    (h : ∃ n ∈ z.namelist, isImageName n = true ∧ dec (z.readEntry n) = none) :
    read_zip_images dec z = .error PyErr.unidentifiedImageError := by
  obtain ⟨n, hn, hni, hnd⟩ := h
  unfold read_zip_images
  exact read_zip_loop_err dec z _ ⟨n, (pySorted_perm z.namelist).mem_iff.mpr hn, hni, hnd⟩

/-- C9 witness: the abort-on-undecodable-entry theorem instantiated on a
concrete archive with a failing decoder. -/
theorem C9_witness :
    (∃ n ∈ sampleZip.namelist, isImageName n = true ∧
      sampleDecFail (sampleZip.readEntry n) = none) ∧
    read_zip_images sampleDecFail sampleZip = .error PyErr.unidentifiedImageError :=
  ⟨by decide, C9_undecodable_aborts sampleDecFail sampleZip (by decide)⟩

end CatalogApp
